import Mathlib

/-!
Shallow embedding of the stock-ledger and occupancy-reconciliation logic of
the SECTER-444 dashboard.

The ledger part embeds the four handlers of `src/client/pages/Stock.tsx`
(`handleAddStockSubmit`, `handleConfirmAddition`, `handleTransferSubmit`,
`handleConfirmTransfer`).  The Firestore document store is modelled as lists
of rows inside a `LedgerState`; a Firestore query followed by `docs[0]` is
modelled as `List.find?` on the row list, `updateDoc` on that document as an
update of the first matching row, and `addDoc` as appending a row.  Form
fields arrive post-`parseInt`: quantities are `Int` (JS numbers used as
integers), the emptiness checks on the raw form strings carry over to the
string fields that remain.  Firestore server timestamps and `new
Date().toISOString()` values are opaque `String`/`Nat` parameters.
The handlers report validation failures through toasts and return before any
write; this is embedded as `Except StockError` where an `error` result
produces no successor state.

The occupancy part embeds `syncRoomOccupancy` and `getFermeStats` from the
Fermes page; JS arithmetic on the occupancy rates is modelled over `ℚ`
(exact arithmetic; the properties proved — equalities to small rationals,
bounds by 100 — are insensitive to binary rounding at these magnitudes).
The `efficiencyScore` field, which divides by the room count and yields JS
`NaN` on an empty room list, is not needed by any claim and is omitted.
-/

namespace Secter

/-- A document of the `stocks` collection (`StockItem` in `shared/types.ts`).
Quantities are JS numbers used as integers, so `Int`. -/
structure StockRow where
  secteurId : String
  item : String
  quantity : Int
  unit : String
  lastUpdated : String
deriving DecidableEq

/-- Workflow state of `StockTransfer` / `StockAddition` rows
(`status` field, `pending` or `confirmed`). -/
inductive WfStatus where
  | pending
  | confirmed
deriving DecidableEq

/-- A document of the `stock_transfers` collection. -/
structure TransferRow where
  id : String
  fromSecteurId : String
  toSecteurId : String
  item : String
  quantity : Int
  unit : String
  status : WfStatus
deriving DecidableEq

/-- A document of the `stock_additions` collection. -/
structure AdditionRow where
  id : String
  secteurId : String
  item : String
  quantity : Int
  unit : String
  status : WfStatus
  addedBy : String
deriving DecidableEq

/-- The three collections the ledger handlers read and write. -/
structure LedgerState where
  stocks : List StockRow
  transfers : List TransferRow
  additions : List AdditionRow
deriving DecidableEq

/-- Failure outcomes of the validating handlers: the destructive toasts of
`handleAddStockSubmit` / `handleTransferSubmit`.  `insufficientStock`
carries the displayed available amount (`currentStock?.quantity || 0`). -/
inductive StockError where
  | validationError
  | insufficientStock (available : Int)
deriving DecidableEq

/-- Update the first element satisfying `p` by `f`, leaving the rest alone:
the effect of `updateDoc` on `querySnapshot.docs[0]`. -/
def updateFirst (p : α → Bool) (f : α → α) : List α → List α
  | [] => []
  | x :: xs => if p x then f x :: xs else x :: updateFirst p f xs

/-- The Firestore query `where('secteurId','==',secteurId),
where('item','==',item)` on the `stocks` collection, as a row predicate. -/
def stockMatches (secteurId item : String) (s : StockRow) : Bool :=
  decide (s.secteurId = secteurId ∧ s.item = item)

/-- The upsert-or-increment block shared by `handleAddStockSubmit` (direct
branch), `handleConfirmAddition` and the receiver side of
`handleConfirmTransfer`: if no stock row matches, a fresh row is added; else
the first matching row's `quantity` is incremented and `lastUpdated`
refreshed (its `unit` is not touched). -/
def upsertStock (secteurId item : String) (q : Int) (unit now : String)
    (stocks : List StockRow) : List StockRow :=
  if (stocks.find? (stockMatches secteurId item)).isSome then
    updateFirst (stockMatches secteurId item)
      (fun s => { s with quantity := s.quantity + q, lastUpdated := now }) stocks
  else
    stocks ++ [⟨secteurId, item, q, unit, now⟩]

/-- The sender-side decrement of `handleConfirmTransfer`: if a matching row
exists its quantity is decremented, otherwise nothing happens
(`if (!senderSnapshot.empty)`). -/
def debitStock (secteurId item : String) (q : Int) (now : String)
    (stocks : List StockRow) : List StockRow :=
  if (stocks.find? (stockMatches secteurId item)).isSome then
    updateFirst (stockMatches secteurId item)
      (fun s => { s with quantity := s.quantity - q, lastUpdated := now }) stocks
  else
    stocks

/-- `handleAddStockSubmit` after the form's `parseInt`.  The required-field
check `!item || !quantity || (!isSuperAdmin && !secteurId)` keeps its string
parts; a super admin creates a pending `StockAddition`, a farm admin
upserts the own sector's stock row directly. -/
def handleAddStockSubmit (isSuperAdmin : Bool) (userFermeId userUid : String)
    (item : String) (quantity : Int) (unit secteurId : String)
    (newId now : String) (st : LedgerState) : Except StockError LedgerState :=
  if item = "" ∨ (isSuperAdmin = false ∧ secteurId = "") then
    .error .validationError
  else if quantity ≤ 0 then
    .error .validationError
  else if isSuperAdmin then
    .ok { st with additions :=
      st.additions ++ [⟨newId, secteurId, item, quantity, unit, .pending, userUid⟩] }
  else
    .ok { st with stocks := upsertStock userFermeId item quantity unit now st.stocks }

/-- `handleConfirmAddition`: marks the addition row confirmed, then
upserts/increments the owning sector's stock row.  The source performs no
check of the addition's current status. -/
def handleConfirmAddition (a : AdditionRow) (now : String)
    (st : LedgerState) : LedgerState :=
  { st with
    additions := st.additions.map
      (fun x => if x.id = a.id then { x with status := .confirmed } else x),
    stocks := upsertStock a.secteurId a.item a.quantity a.unit now st.stocks }

/-- `handleTransferSubmit` after the form's `parseInt`.  Checks, in source
order: required fields, same-sector, non-positive quantity, insufficient
sender stock (reporting `currentStock?.quantity || 0`); on success appends
a pending `StockTransfer` row. -/
def handleTransferSubmit (isSuperAdmin : Bool) (userFermeId : String)
    (item : String) (quantity : Int) (unit toSecteurId fromSecteurIdForm : String)
    (newId : String) (st : LedgerState) : Except StockError LedgerState :=
  if item = "" ∨ toSecteurId = "" ∨ (isSuperAdmin = true ∧ fromSecteurIdForm = "") then
    .error .validationError
  else
    let fromSecteurId := if isSuperAdmin then fromSecteurIdForm else userFermeId
    if toSecteurId = fromSecteurId then
      .error .validationError
    else if quantity ≤ 0 then
      .error .validationError
    else
      match st.stocks.find? (stockMatches fromSecteurId item) with
      | none => .error (.insufficientStock 0)
      | some s =>
        if s.quantity < quantity then
          .error (.insufficientStock s.quantity)
        else
          .ok { st with transfers := st.transfers ++
            [⟨newId, fromSecteurId, toSecteurId, item, quantity, unit, .pending⟩] }

/-- `handleConfirmTransfer`: marks the transfer row confirmed, decrements
the sender's stock row (skipped when absent), then upserts/increments the
receiver's stock row.  The source performs no check of the transfer's
current status. -/
def handleConfirmTransfer (t : TransferRow) (now : String)
    (st : LedgerState) : LedgerState :=
  { st with
    transfers := st.transfers.map
      (fun x => if x.id = t.id then { x with status := .confirmed } else x),
    stocks := upsertStock t.toSecteurId t.item t.quantity t.unit now
      (debitStock t.fromSecteurId t.item t.quantity now st.stocks) }

/-- The list feeding the transfer-confirmation UI:
`transfers.filter(t => t.status === 'pending' && t.toSecteurId === user?.fermeId)`. -/
def pendingIncomingTransfers (userFermeId : String)
    (transfers : List TransferRow) : List TransferRow :=
  transfers.filter
    (fun t => decide (t.status = .pending ∧ t.toSecteurId = userFermeId))

/-- The list feeding the addition-confirmation UI:
`stockAdditions.filter(a => a.status === 'pending')`. -/
def pendingAdditions (additions : List AdditionRow) : List AdditionRow :=
  additions.filter (fun a => decide (a.status = .pending))

/-- Observer: a sector's balance for an item, the sum of the quantities of
all matching stock rows (with the per-(secteurId, item) uniqueness of §3 of
the spec there is at most one such row and this is its quantity, 0 when the
row is absent). -/
def balance (secteurId item : String) (stocks : List StockRow) : Int :=
  ((stocks.filter (stockMatches secteurId item)).map StockRow.quantity).sum

/-- Composite key of a stock row. -/
def stockKey (s : StockRow) : String × String :=
  (s.secteurId, s.item)

/-- The composite-uniqueness invariant of §3 of the spec: at most one stock
row per (secteurId, item). -/
def uniqueStockKeys (stocks : List StockRow) : Prop :=
  stocks.Pairwise (fun a b => stockKey a ≠ stockKey b)

/-- `sexe` field of a worker (`'homme' | 'femme'` in `shared/types.ts`). -/
inductive Sexe where
  | homme
  | femme
deriving DecidableEq

/-- `statut` field of a worker (`'actif' | 'inactif'`). -/
inductive Statut where
  | actif
  | inactif
deriving DecidableEq

/-- `genre` field of a room (`'hommes' | 'femmes'`). -/
inductive Genre where
  | hommes
  | femmes
deriving DecidableEq

/-- The fields of a `workers` document the reconciler and the stats read. -/
structure Worker where
  id : String
  fermeId : String
  sexe : Sexe
  chambre : String
  statut : Statut
deriving DecidableEq

/-- A `rooms` document.  `updatedAt` is the timestamp field
`syncRoomOccupancy` writes alongside the corrected counts (it is absent
from the `Room` interface of `shared/types.ts` but present in the written
document); occupant counts are JS numbers, so `Int`. -/
structure Room where
  id : String
  numero : String
  fermeId : String
  genre : Genre
  capaciteTotale : Int
  occupantsActuels : Int
  listeOccupants : List String
  updatedAt : Nat
deriving DecidableEq

/-- `worker.sexe === 'homme' ? 'hommes' : 'femmes'`. -/
def genderLabel (s : Sexe) : String :=
  match s with
  | .homme => "hommes"
  | .femme => "femmes"

/-- The string a room's `genre` field holds. -/
def genreStr (g : Genre) : String :=
  match g with
  | .hommes => "hommes"
  | .femmes => "femmes"

/-- The grouping key of a worker in `syncRoomOccupancy`:
`` `${worker.fermeId}-${worker.chambre}-${workerGender}` ``. -/
def workerKey (w : Worker) : String :=
  w.fermeId ++ "-" ++ w.chambre ++ "-" ++ genderLabel w.sexe

/-- The lookup key of a room in `syncRoomOccupancy`:
`` `${room.fermeId}-${room.numero}-${room.genre}` ``. -/
def roomKey (r : Room) : String :=
  r.fermeId ++ "-" ++ r.numero ++ "-" ++ genreStr r.genre

/-- The eligibility test of the `reduce` in `syncRoomOccupancy`:
`worker.statut === 'actif' && worker.chambre && worker.fermeId`
(JS truthiness on the strings is non-emptiness). -/
def eligibleWorker (w : Worker) : Bool :=
  decide (w.statut = .actif ∧ w.chambre ≠ "" ∧ w.fermeId ≠ "")

/-- One step of the `reduce` in `syncRoomOccupancy`:
`acc[key] = (acc[key] || []).concat(worker)` for an eligible worker. -/
def groupStep (acc : String → List Worker) (w : Worker) : String → List Worker :=
  if eligibleWorker w then
    fun k => if k = workerKey w then acc (workerKey w) ++ [w] else acc k
  else acc

/-- The `workersByRoom` record built by the `reduce` in `syncRoomOccupancy`,
as a function from key to the accumulated worker list. -/
def workersByRoom (workers : List Worker) : String → List Worker :=
  workers.foldl groupStep (fun _ => [])

/-- One emitted room correction: the `updateRoom(room.id, {...})` payload. -/
structure RoomCorrection where
  roomId : String
  occupantsActuels : Int
  listeOccupants : List String
deriving DecidableEq

/-- The per-room body of the loop in `syncRoomOccupancy`: the corrected
room together with the correction written for it, `none` when the stored
count already matches (`if (room.occupantsActuels !== actualOccupants)`). -/
def syncRoom (workers : List Worker) (now : Nat) (r : Room) :
    Room × Option RoomCorrection :=
  let workersInRoom := workersByRoom workers (roomKey r)
  let actualOccupants : Int := workersInRoom.length
  if r.occupantsActuels ≠ actualOccupants then
    ({ r with occupantsActuels := actualOccupants,
              listeOccupants := workersInRoom.map Worker.id,
              updatedAt := now },
     some ⟨r.id, actualOccupants, workersInRoom.map Worker.id⟩)
  else
    (r, none)

/-- `syncRoomOccupancy`: the room list with all corrections applied, and
the list of corrections that were written. -/
def syncRoomOccupancy (workers : List Worker) (rooms : List Room)
    (now : Nat) : List Room × List RoomCorrection :=
  (rooms.map (fun r => (syncRoom workers now r).1),
   rooms.filterMap (fun r => (syncRoom workers now r).2))

/-- Modelled from the spec (§8, claim wording): the true occupant count of
a room, the number of workers with `statut` actif whose `chambre` equals
the room's `numero`, whose gender label matches the room's `genre`, and
whose `fermeId` matches the room's — componentwise, with no string
concatenation.  This is the comparison point for the reconciler, not a
translation of repository code. -/
def trueCount (workers : List Worker) (r : Room) : Nat :=
  workers.countP (fun w => decide (w.statut = .actif ∧ w.chambre = r.numero ∧
    w.fermeId = r.fermeId ∧ genderLabel w.sexe = genreStr r.genre))

/-- A string free of the `-` separator the grouping keys are built with. -/
def noDash (s : String) : Prop :=
  '-' ∉ s.data

instance (s : String) : Decidable (noDash s) :=
  inferInstanceAs (Decidable ('-' ∉ s.data))

/-- The per-room record of `getFermeStats` (`roomStats` entries). -/
structure RoomStat where
  room : Room
  workersCount : Nat
  isOccupied : Bool
  capacityUsed : Int
  utilizationRate : ℚ
  isOvercapacity : Bool
deriving DecidableEq

/-- The aggregate record `getFermeStats` returns (the `efficiencyScore`
field, irrelevant to every claim and NaN-valued on an empty room list, is
omitted). -/
structure FermeStats where
  totalOuvriers : Nat
  totalChambres : Nat
  chambresOccupees : Nat
  chambresVides : Nat
  totalCapacity : Int
  totalOccupied : Int
  placesDisponibles : Int
  tauxOccupation : ℤ
  maleWorkers : Nat
  femaleWorkers : Nat
  maleRooms : Nat
  femaleRooms : Nat
  roomStats : List RoomStat
  workersWithoutRooms : Nat
  overcapacityRooms : Nat
  hasIssues : Bool
  isWellUtilized : Bool
  needsAttention : Bool
deriving DecidableEq

/-- The grouping key of `getFermeStats`'s `workersByRoom` record:
`` `${worker.chambre}-${workerGenderType}` `` (the farm is already fixed by
the outer filter, so the key omits it). -/
def statsWorkerKey (w : Worker) : String :=
  w.chambre ++ "-" ++ genderLabel w.sexe

/-- The per-room lookup key of `getFermeStats`:
`` `${room.numero}-${room.genre}` ``. -/
def statsRoomKey (r : Room) : String :=
  r.numero ++ "-" ++ genreStr r.genre

/-- One step of the `reduce` in `getFermeStats`:
`acc[roomKey] = (acc[roomKey] || 0) + 1`, guarded by `if (worker.chambre)`. -/
def statsStep (acc : String → Nat) (w : Worker) : String → Nat :=
  if w.chambre ≠ "" then
    fun k => if k = statsWorkerKey w then acc (statsWorkerKey w) + 1 else acc k
  else acc

/-- The count record built by the `reduce` in `getFermeStats`. -/
def statsWorkersByRoom (fermeWorkers : List Worker) : String → Nat :=
  fermeWorkers.foldl statsStep (fun _ => 0)

/-- The per-room entry of `roomStats` in `getFermeStats`.  The utilization
rate is the exact value of `(capacityUsed / capaciteTotale) * 100` (the
source rounds only the sector-level aggregate). -/
def mkRoomStat (counts : String → Nat) (r : Room) : RoomStat :=
  let workersInRoom := counts (statsRoomKey r)
  let capacityUsed : Int := min (workersInRoom : Int) r.capaciteTotale
  { room := r
    workersCount := workersInRoom
    isOccupied := decide (0 < workersInRoom)
    capacityUsed := capacityUsed
    utilizationRate :=
      if 0 < r.capaciteTotale then (capacityUsed : ℚ) / (r.capaciteTotale : ℚ) * 100 else 0
    isOvercapacity := decide (r.capaciteTotale < (workersInRoom : Int)) }

/-- `getFermeStats` from the Fermes page: filters the snapshot to the farm,
groups active workers by room-number+gender key, builds the per-room stats
and the sector aggregates. -/
def getFermeStats (fermeId : String) (workers : List Worker)
    (rooms : List Room) : FermeStats :=
  let fermeWorkers := workers.filter
    (fun w => decide (w.fermeId = fermeId ∧ w.statut = .actif))
  let fermeRooms := rooms.filter (fun r => decide (r.fermeId = fermeId))
  let counts := statsWorkersByRoom fermeWorkers
  let roomStats := fermeRooms.map (mkRoomStat counts)
  let occupiedRooms := (roomStats.filter RoomStat.isOccupied).length
  let totalCapacity := (fermeRooms.map Room.capaciteTotale).sum
  let totalOccupied := (roomStats.map RoomStat.capacityUsed).sum
  let averageUtilization : ℚ :=
    if 0 < totalCapacity then (totalOccupied : ℚ) / (totalCapacity : ℚ) * 100 else 0
  let workersWithoutRooms :=
    (fermeWorkers.filter (fun w => decide (w.chambre = ""))).length
  let overcapacityRooms := (roomStats.filter RoomStat.isOvercapacity).length
  { totalOuvriers := fermeWorkers.length
    totalChambres := fermeRooms.length
    chambresOccupees := occupiedRooms
    chambresVides := fermeRooms.length - occupiedRooms
    totalCapacity := totalCapacity
    totalOccupied := totalOccupied
    placesDisponibles := totalCapacity - totalOccupied
    tauxOccupation := round averageUtilization
    maleWorkers := (fermeWorkers.filter (fun w => decide (w.sexe = .homme))).length
    femaleWorkers := (fermeWorkers.filter (fun w => decide (w.sexe = .femme))).length
    maleRooms := (fermeRooms.filter (fun r => decide (r.genre = .hommes))).length
    femaleRooms := (fermeRooms.filter (fun r => decide (r.genre = .femmes))).length
    roomStats := roomStats
    workersWithoutRooms := workersWithoutRooms
    overcapacityRooms := overcapacityRooms
    hasIssues := decide (0 < workersWithoutRooms ∨ 0 < overcapacityRooms)
    isWellUtilized := decide (60 ≤ averageUtilization ∧ averageUtilization ≤ 90)
    needsAttention := decide (0 < workersWithoutRooms ∨ 0 < overcapacityRooms ∨
      95 < averageUtilization) }

/-! ### Generic lemmas about `updateFirst`, `find?` and `balance` -/

theorem updateFirst_of_find?_none {p : α → Bool} {f : α → α} :
    ∀ {l : List α}, l.find? p = none → updateFirst p f l = l := by
  intro l
  induction l with
  | nil => intro _; rfl
  | cons x xs ih =>
    intro h
    rw [List.find?_cons] at h
    by_cases hx : p x
    · simp [hx] at h
    · simp only [updateFirst, hx, if_false, Bool.false_eq_true]
      rw [ih (by simpa [hx] using h)]

theorem find?_updateFirst_self {p : α → Bool} {f : α → α}
    (hp : ∀ x, p (f x) = p x) :
    ∀ (l : List α), (updateFirst p f l).find? p = (l.find? p).map f := by
  intro l
  induction l with
  | nil => rfl
  | cons x xs ih =>
    by_cases hx : p x
    · simp [updateFirst, hx, List.find?_cons, hp]
    · simp [updateFirst, hx, List.find?_cons, ih]

theorem find?_updateFirst_disjoint {p q : α → Bool} {f : α → α}
    (hdis : ∀ x, q x = true → p x = false) (hq : ∀ x, q (f x) = q x) :
    ∀ (l : List α), (updateFirst p f l).find? q = l.find? q := by
  intro l
  induction l with
  | nil => rfl
  | cons x xs ih =>
    by_cases hx : p x
    · have hqx : q x = false := by
        by_cases h : q x
        · exact absurd (hdis x h) (by simp [hx])
        · simpa using h
      simp [updateFirst, hx, List.find?_cons, hq, hqx]
    · by_cases h : q x
      · simp [updateFirst, hx, List.find?_cons, h]
      · simp only [updateFirst, hx, if_false, Bool.false_eq_true]
        simp [List.find?_cons, h, ih]

theorem find?_append_of_none {p : α → Bool} {l₁ l₂ : List α}
    (h : l₁.find? p = none) : (l₁ ++ l₂).find? p = l₂.find? p := by
  induction l₁ with
  | nil => rfl
  | cons x xs ih =>
    rw [List.find?_cons] at h
    by_cases hx : p x
    · simp [hx] at h
    · simp only [List.cons_append, List.find?_cons, hx, Bool.false_eq_true, if_false]
      exact ih (by simpa [hx] using h)

theorem mem_updateFirst {p : α → Bool} {f : α → α} {x : α} :
    ∀ {l : List α}, x ∈ updateFirst p f l →
      x ∈ l ∨ ∃ y, l.find? p = some y ∧ x = f y := by
  intro l
  induction l with
  | nil => intro h; exact absurd h (List.not_mem_nil x)
  | cons s xs ih =>
    intro h
    by_cases hs : p s
    · simp only [updateFirst, hs, if_true] at h
      rcases List.mem_cons.mp h with h1 | h2
      · exact Or.inr ⟨s, by simp [List.find?_cons, hs], h1⟩
      · exact Or.inl (List.mem_cons_of_mem s h2)
    · simp only [updateFirst, hs, if_false, Bool.false_eq_true] at h
      rcases List.mem_cons.mp h with h1 | h2
      · exact Or.inl (h1 ▸ List.mem_cons_self s xs)
      · rcases ih h2 with h3 | ⟨y, hy, hxy⟩
        · exact Or.inl (List.mem_cons_of_mem s h3)
        · exact Or.inr ⟨y, by simp [List.find?_cons, hs, hy], hxy⟩

theorem balance_cons (k i : String) (s : StockRow) (l : List StockRow) :
    balance k i (s :: l) =
      (if stockMatches k i s then s.quantity else 0) + balance k i l := by
  by_cases hs : stockMatches k i s
  · simp [balance, List.filter_cons, hs]
  · simp [balance, List.filter_cons, hs]

theorem balance_append (k i : String) (l₁ l₂ : List StockRow) :
    balance k i (l₁ ++ l₂) = balance k i l₁ + balance k i l₂ := by
  simp [balance, List.filter_append]

theorem stockMatches_update (k i : String) (s : StockRow) (q' : Int) (n : String) :
    stockMatches k i { s with quantity := q', lastUpdated := n } =
      stockMatches k i s := rfl

theorem balance_updateFirst (k i : String) (f : StockRow → StockRow) (d : Int)
    (hkeep : ∀ s, stockMatches k i (f s) = stockMatches k i s)
    (hq : ∀ s, stockMatches k i s = true → (f s).quantity = s.quantity + d) :
    ∀ {l : List StockRow}, (l.find? (stockMatches k i)).isSome →
      balance k i (updateFirst (stockMatches k i) f l) = balance k i l + d := by
  intro l
  induction l with
  | nil => intro h; simp at h
  | cons s xs ih =>
    intro h
    by_cases hs : stockMatches k i s
    · simp only [updateFirst, hs, if_true]
      rw [balance_cons, balance_cons, hkeep, hq s hs]
      simp [hs]
      ring
    · have h' : (xs.find? (stockMatches k i)).isSome := by
        rw [List.find?_cons] at h
        simpa [hs] using h
      simp only [updateFirst, hs, if_false, Bool.false_eq_true]
      rw [balance_cons, balance_cons, ih h']
      ring

theorem stockMatches_key_eq {k i : String} {s : StockRow}
    (h : stockMatches k i s = true) : s.secteurId = k ∧ s.item = i := by
  simpa [stockMatches] using h

theorem balance_updateFirst_other (k i k' i' : String) (f : StockRow → StockRow)
    (hsec : ∀ s, (f s).secteurId = s.secteurId) (hitem : ∀ s, (f s).item = s.item)
    (hne : ¬(k' = k ∧ i' = i)) :
    ∀ (l : List StockRow),
      balance k' i' (updateFirst (stockMatches k i) f l) = balance k' i' l := by
  intro l
  induction l with
  | nil => rfl
  | cons s xs ih =>
    by_cases hs : stockMatches k i s
    · have hnot : stockMatches k' i' s = false := by
        obtain ⟨h1, h2⟩ := stockMatches_key_eq hs
        by_cases h : stockMatches k' i' s
        · obtain ⟨h3, h4⟩ := stockMatches_key_eq h
          exact absurd ⟨by rw [← h3, h1], by rw [← h4, h2]⟩ hne
        · simpa using h
      have hnotf : stockMatches k' i' (f s) = false := by
        simpa [stockMatches, hsec, hitem] using hnot
      simp only [updateFirst, hs, if_true]
      rw [balance_cons, balance_cons, hnot, hnotf]
      simp
    · simp only [updateFirst, hs, if_false, Bool.false_eq_true]
      rw [balance_cons, balance_cons, ih]

theorem balance_singleton_self (k i : String) (q : Int) (u n : String) :
    balance k i [⟨k, i, q, u, n⟩] = q := by
  simp [balance, List.filter_cons, stockMatches]

theorem balance_singleton_other (k i k' i' : String) (q : Int) (u n : String)
    (hne : ¬(k' = k ∧ i' = i)) :
    balance k' i' [⟨k, i, q, u, n⟩] = 0 := by
  have : stockMatches k' i' ⟨k, i, q, u, n⟩ = false := by
    by_cases h : stockMatches k' i' (⟨k, i, q, u, n⟩ : StockRow)
    · obtain ⟨h1, h2⟩ := stockMatches_key_eq h
      exact absurd ⟨h1.symm, h2.symm⟩ hne
    · simpa using h
  simp [balance, List.filter_cons, this]

theorem balance_upsert_self (k i : String) (q : Int) (u n : String)
    (l : List StockRow) :
    balance k i (upsertStock k i q u n l) = balance k i l + q := by
  by_cases h : (l.find? (stockMatches k i)).isSome
  · simp only [upsertStock, h, if_true]
    exact balance_updateFirst k i _ q (fun s => stockMatches_update k i s _ n)
      (fun s _ => rfl) h
  · simp only [upsertStock, h, Bool.false_eq_true, if_false]
    rw [balance_append, balance_singleton_self]

theorem balance_upsert_other (k i k' i' : String) (q : Int) (u n : String)
    (l : List StockRow) (hne : ¬(k' = k ∧ i' = i)) :
    balance k' i' (upsertStock k i q u n l) = balance k' i' l := by
  by_cases h : (l.find? (stockMatches k i)).isSome
  · simp only [upsertStock, h, if_true]
    exact balance_updateFirst_other k i k' i'
      (fun s => { s with quantity := s.quantity + q, lastUpdated := n })
      (fun s => rfl) (fun s => rfl) hne l
  · simp only [upsertStock, h, Bool.false_eq_true, if_false]
    rw [balance_append, balance_singleton_other k i k' i' q u n hne, add_zero]

theorem balance_debit_self (k i : String) (q : Int) (n : String)
    {l : List StockRow} (h : (l.find? (stockMatches k i)).isSome) :
    balance k i (debitStock k i q n l) = balance k i l - q := by
  simp only [debitStock, h, if_true]
  rw [balance_updateFirst k i _ (-q) (fun s => stockMatches_update k i s _ n)
    (fun s _ => by simp; ring) h]
  ring

theorem balance_debit_other (k i k' i' : String) (q : Int) (n : String)
    (l : List StockRow) (hne : ¬(k' = k ∧ i' = i)) :
    balance k' i' (debitStock k i q n l) = balance k' i' l := by
  by_cases h : (l.find? (stockMatches k i)).isSome
  · simp only [debitStock, h, if_true]
    exact balance_updateFirst_other k i k' i'
      (fun s => { s with quantity := s.quantity - q, lastUpdated := n })
      (fun s => rfl) (fun s => rfl) hne l
  · simp only [debitStock, h, Bool.false_eq_true, if_false]

theorem find?_isSome_upsert (k i : String) (q : Int) (u n : String)
    (l : List StockRow) :
    ((upsertStock k i q u n l).find? (stockMatches k i)).isSome := by
  by_cases h : (l.find? (stockMatches k i)).isSome
  · simp only [upsertStock, h, if_true]
    rw [find?_updateFirst_self (fun s => stockMatches_update k i s _ n)]
    simpa using h
  · simp only [upsertStock, h, Bool.false_eq_true, if_false]
    rw [find?_append_of_none (by simpa using h)]
    simp [List.find?_cons, stockMatches]

theorem balance_eq_zero_of_no_match {k i : String} {l : List StockRow}
    (h : ∀ b ∈ l, stockMatches k i b = false) : balance k i l = 0 := by
  have hf : l.filter (stockMatches k i) = [] := by
    rw [List.filter_eq_nil_iff]
    intro a ha
    simp [h a ha]
  simp [balance, hf]

theorem balance_of_uniqueKeys {k i : String} :
    ∀ {l : List StockRow}, uniqueStockKeys l →
      balance k i l = ((l.find? (stockMatches k i)).map StockRow.quantity).getD 0 := by
  intro l
  induction l with
  | nil => intro _; rfl
  | cons s xs ih =>
    intro h
    rw [uniqueStockKeys, List.pairwise_cons] at h
    obtain ⟨hhead, htail⟩ := h
    by_cases hs : stockMatches k i s
    · have hz : balance k i xs = 0 := by
        apply balance_eq_zero_of_no_match
        intro b hb
        by_cases hbm : stockMatches k i b
        · obtain ⟨h1, h2⟩ := stockMatches_key_eq hs
          obtain ⟨h3, h4⟩ := stockMatches_key_eq hbm
          exact absurd (show stockKey s = stockKey b by
            simp [stockKey, h1, h2, h3, h4]) (hhead b hb)
        · simpa using hbm
      rw [balance_cons, hz, List.find?_cons_of_pos _ hs]
      simp [hs]
    · rw [balance_cons, List.find?_cons_of_neg _ (by simpa using hs)]
      simp only [hs, Bool.false_eq_true, if_false, zero_add]
      exact ih htail

/-! ### Claim theorems for the stock ledger -/

/-- C1: confirming a pending transfer of quantity Q from sector A, whose
stock row for the item exists, to a distinct sector B debits A by Q,
credits B by Q (creating B's row when absent, so B's row exists
afterwards), and conserves the combined quantity of the item across the
two sectors. -/
theorem confirmTransfer_conserves_quantity (st : LedgerState) (t : TransferRow)
    (now : String)
    (_hpend : t.status = WfStatus.pending)
    (hsender : (st.stocks.find? (stockMatches t.fromSecteurId t.item)).isSome)
    (hne : t.fromSecteurId ≠ t.toSecteurId) :
    balance t.fromSecteurId t.item (handleConfirmTransfer t now st).stocks
        = balance t.fromSecteurId t.item st.stocks - t.quantity
    ∧ balance t.toSecteurId t.item (handleConfirmTransfer t now st).stocks
        = balance t.toSecteurId t.item st.stocks + t.quantity
    ∧ ((handleConfirmTransfer t now st).stocks.find?
        (stockMatches t.toSecteurId t.item)).isSome
    ∧ balance t.fromSecteurId t.item (handleConfirmTransfer t now st).stocks
        + balance t.toSecteurId t.item (handleConfirmTransfer t now st).stocks
      = balance t.fromSecteurId t.item st.stocks
        + balance t.toSecteurId t.item st.stocks := by
  have hne1 : ¬(t.fromSecteurId = t.toSecteurId ∧ t.item = t.item) :=
    fun h => hne h.1
  have hne2 : ¬(t.toSecteurId = t.fromSecteurId ∧ t.item = t.item) :=
    fun h => hne h.1.symm
  have hfrom : balance t.fromSecteurId t.item (handleConfirmTransfer t now st).stocks
      = balance t.fromSecteurId t.item st.stocks - t.quantity := by
    simp only [handleConfirmTransfer]
    rw [balance_upsert_other t.toSecteurId t.item t.fromSecteurId t.item
      t.quantity t.unit now _ hne1]
    exact balance_debit_self t.fromSecteurId t.item t.quantity now hsender
  have hto : balance t.toSecteurId t.item (handleConfirmTransfer t now st).stocks
      = balance t.toSecteurId t.item st.stocks + t.quantity := by
    simp only [handleConfirmTransfer]
    rw [balance_upsert_self,
      balance_debit_other t.fromSecteurId t.item t.toSecteurId t.item
        t.quantity now _ hne2]
  refine ⟨hfrom, hto, ?_, by rw [hfrom, hto]; ring⟩
  simp only [handleConfirmTransfer]
  exact find?_isSome_upsert t.toSecteurId t.item t.quantity t.unit now _

/-- Concrete ledger state used by the ledger witnesses: sector A holds 7
of item x, a pending transfer of 3 from A to B is on file. -/
def wSt : LedgerState :=
  ⟨[⟨"A", "x", 7, "u", "t0"⟩], [⟨"id1", "A", "B", "x", 3, "u", WfStatus.pending⟩], []⟩

/-- The pending transfer of `wSt`. -/
def wT : TransferRow := ⟨"id1", "A", "B", "x", 3, "u", WfStatus.pending⟩

theorem confirmTransfer_conserves_quantity_witness :
    wT.status = WfStatus.pending
    ∧ (wSt.stocks.find? (stockMatches wT.fromSecteurId wT.item)).isSome
    ∧ wT.fromSecteurId ≠ wT.toSecteurId
    ∧ (balance wT.fromSecteurId wT.item (handleConfirmTransfer wT "t1" wSt).stocks
        = balance wT.fromSecteurId wT.item wSt.stocks - wT.quantity
      ∧ balance wT.toSecteurId wT.item (handleConfirmTransfer wT "t1" wSt).stocks
        = balance wT.toSecteurId wT.item wSt.stocks + wT.quantity
      ∧ ((handleConfirmTransfer wT "t1" wSt).stocks.find?
          (stockMatches wT.toSecteurId wT.item)).isSome
      ∧ balance wT.fromSecteurId wT.item (handleConfirmTransfer wT "t1" wSt).stocks
          + balance wT.toSecteurId wT.item (handleConfirmTransfer wT "t1" wSt).stocks
        = balance wT.fromSecteurId wT.item wSt.stocks
          + balance wT.toSecteurId wT.item wSt.stocks) :=
  ⟨rfl, by decide, by decide,
    confirmTransfer_conserves_quantity wSt wT "t1" rfl (by decide) (by decide)⟩

/-- C3: a transfer request whose quantity exceeds the sender's current
stock (the quantity of the sender's unique matching row, 0 when no row
exists) fails with the insufficient-stock error carrying exactly that
current quantity; the result is an error, so no pending transfer row is
created and no stock row changes. -/
theorem createTransfer_insufficient (isSuperAdmin : Bool)
    (userFermeId item unit toSecteurId fromSecteurIdForm newId : String)
    (quantity : Int) (st : LedgerState)
    (hitem : item ≠ "") (hto : toSecteurId ≠ "")
    (hfrom : isSuperAdmin = true → fromSecteurIdForm ≠ "")
    (hne : toSecteurId ≠ (if isSuperAdmin then fromSecteurIdForm else userFermeId))
    (hq : 0 < quantity)
    (huniq : uniqueStockKeys st.stocks)
    (hins : balance (if isSuperAdmin then fromSecteurIdForm else userFermeId)
      item st.stocks < quantity) :
    handleTransferSubmit isSuperAdmin userFermeId item quantity unit toSecteurId
        fromSecteurIdForm newId st
      = .error (.insufficientStock
          (balance (if isSuperAdmin then fromSecteurIdForm else userFermeId)
            item st.stocks)) := by
  have hbal := balance_of_uniqueKeys
    (k := if isSuperAdmin then fromSecteurIdForm else userFermeId) (i := item) huniq
  simp only [handleTransferSubmit]
  rw [if_neg (by push_neg; exact ⟨hitem, hto, fun h => hfrom h⟩)]
  rw [if_neg hne, if_neg (by omega : ¬ quantity ≤ 0)]
  cases hfind : st.stocks.find?
      (stockMatches (if isSuperAdmin then fromSecteurIdForm else userFermeId) item) with
  | none =>
    rw [hbal, hfind]
    rfl
  | some s =>
    rw [hbal, hfind] at hins ⊢
    have hsq : s.quantity < quantity := by simpa using hins
    simp [hsq]

theorem createTransfer_insufficient_witness :
    ("x" : String) ≠ "" ∧ ("B" : String) ≠ ""
    ∧ (false = true → ("" : String) ≠ "")
    ∧ ("B" : String) ≠ (if false then "" else "A")
    ∧ (0 : Int) < 5
    ∧ uniqueStockKeys ([⟨"A", "x", 2, "u", "t0"⟩] : List StockRow)
    ∧ balance (if false then "" else "A") "x" [⟨"A", "x", 2, "u", "t0"⟩] < 5
    ∧ handleTransferSubmit false "A" "x" 5 "u" "B" "" "n1"
        ⟨[⟨"A", "x", 2, "u", "t0"⟩], [], []⟩
      = .error (.insufficientStock
          (balance (if false then "" else "A") "x" [⟨"A", "x", 2, "u", "t0"⟩])) :=
  ⟨by decide, by decide, by decide, by decide, by decide,
    by simp [uniqueStockKeys],
    by decide,
    createTransfer_insufficient false "A" "x" "u" "B" "" "n1" 5
      ⟨[⟨"A", "x", 2, "u", "t0"⟩], [], []⟩
      (by decide) (by decide) (by decide) (by decide) (by decide)
      (by simp [uniqueStockKeys]) (by decide)⟩

/-- C8: a stock addition or a transfer request with non-positive quantity,
and a transfer request whose destination equals its source sector, are
rejected with the validation error; the handler returns the error before
reaching any write, so no pending row is created and no stock balance
changes. -/
theorem validation_rejects_before_write (isSuperAdmin : Bool)
    (userFermeId userUid item unit secteurId toSecteurId fromSecteurIdForm
      newId now : String) (quantity : Int) (st : LedgerState) :
    (quantity ≤ 0 →
      handleAddStockSubmit isSuperAdmin userFermeId userUid item quantity unit
          secteurId newId now st
        = .error .validationError)
    ∧ (quantity ≤ 0 →
      handleTransferSubmit isSuperAdmin userFermeId item quantity unit
          toSecteurId fromSecteurIdForm newId st
        = .error .validationError)
    ∧ (toSecteurId = (if isSuperAdmin then fromSecteurIdForm else userFermeId) →
      handleTransferSubmit isSuperAdmin userFermeId item quantity unit
          toSecteurId fromSecteurIdForm newId st
        = .error .validationError) := by
  refine ⟨?_, ?_, ?_⟩ <;> intro h
  · simp only [handleAddStockSubmit]
    by_cases h1 : item = "" ∨ isSuperAdmin = false ∧ secteurId = ""
    · rw [if_pos h1]
    · rw [if_neg h1, if_pos h]
  · simp only [handleTransferSubmit]
    by_cases h1 : item = "" ∨ toSecteurId = "" ∨ isSuperAdmin = true ∧ fromSecteurIdForm = ""
    · rw [if_pos h1]
    · rw [if_neg h1]
      by_cases h2 : toSecteurId = (if isSuperAdmin then fromSecteurIdForm else userFermeId)
      · rw [if_pos h2]
      · rw [if_neg h2, if_pos h]
  · simp only [handleTransferSubmit]
    by_cases h1 : item = "" ∨ toSecteurId = "" ∨ isSuperAdmin = true ∧ fromSecteurIdForm = ""
    · rw [if_pos h1]
    · rw [if_neg h1, if_pos h]

theorem validation_rejects_before_write_witness :
    handleAddStockSubmit false "A" "u0" "x" 0 "u" "A" "n1" "t1" ⟨[], [], []⟩
      = .error .validationError
    ∧ handleTransferSubmit false "A" "x" 0 "u" "B" "" "n1" ⟨[], [], []⟩
      = .error .validationError
    ∧ handleTransferSubmit false "A" "x" 5 "u" "A" "" "n1" ⟨[], [], []⟩
      = .error .validationError :=
  ⟨(validation_rejects_before_write false "A" "u0" "x" "u" "A" "B" "" "n1" "t1"
      0 ⟨[], [], []⟩).1 (by decide),
   (validation_rejects_before_write false "A" "u0" "x" "u" "A" "B" "" "n1" "t1"
      0 ⟨[], [], []⟩).2.1 (by decide),
   (validation_rejects_before_write false "A" "u0" "x" "u" "A" "A" "" "n1" "t1"
      5 ⟨[], [], []⟩).2.2 (by decide)⟩

/-- C10: when the receiving side of a transfer confirmation, or an addition
confirmation, finds an existing stock row for (secteurId, item), the match
ignores the unit: the incoming quantity is added to that row's quantity and
the row keeps its own `unit` field (the conclusion rows carry `s₁.unit` /
`s₂.unit` unchanged, for arbitrary — possibly different — transfer and
addition units). -/
theorem confirm_credits_by_key_ignoring_unit (st : LedgerState)
    (t : TransferRow) (a : AdditionRow) (now : String) (s₁ s₂ : StockRow)
    (hne : t.fromSecteurId ≠ t.toSecteurId)
    (ht : st.stocks.find? (stockMatches t.toSecteurId t.item) = some s₁)
    (ha : st.stocks.find? (stockMatches a.secteurId a.item) = some s₂) :
    (handleConfirmTransfer t now st).stocks.find?
        (stockMatches t.toSecteurId t.item)
      = some { s₁ with quantity := s₁.quantity + t.quantity, lastUpdated := now }
    ∧ (handleConfirmAddition a now st).stocks.find?
        (stockMatches a.secteurId a.item)
      = some { s₂ with quantity := s₂.quantity + a.quantity, lastUpdated := now } := by
  constructor
  · have hdeb : (debitStock t.fromSecteurId t.item t.quantity now st.stocks).find?
        (stockMatches t.toSecteurId t.item) = some s₁ := by
      by_cases h : (st.stocks.find? (stockMatches t.fromSecteurId t.item)).isSome
      · simp only [debitStock, h, if_true]
        rw [find?_updateFirst_disjoint ?hdis ?hpres]
        · exact ht
        case hdis =>
          intro x hx
          obtain ⟨h1, _⟩ := stockMatches_key_eq hx
          by_cases hp : stockMatches t.fromSecteurId t.item x
          · obtain ⟨h3, _⟩ := stockMatches_key_eq hp
            exact absurd (h3.symm.trans h1) hne
          · simpa using hp
        case hpres =>
          intro x
          exact stockMatches_update t.toSecteurId t.item x _ now
      · simp only [debitStock, h, Bool.false_eq_true, if_false]
        exact ht
    simp only [handleConfirmTransfer, upsertStock, hdeb, Option.isSome_some,
      if_true]
    rw [find?_updateFirst_self
      (fun x => stockMatches_update t.toSecteurId t.item x _ now), hdeb]
    rfl
  · simp only [handleConfirmAddition, upsertStock, ha, Option.isSome_some,
      if_true]
    rw [find?_updateFirst_self
      (fun x => stockMatches_update a.secteurId a.item x _ now), ha]
    rfl

theorem confirm_credits_by_key_ignoring_unit_witness :
    (⟨"id2", "A", "B", "x", 3, "piece", WfStatus.pending⟩ : TransferRow).fromSecteurId
      ≠ (⟨"id2", "A", "B", "x", 3, "piece", WfStatus.pending⟩ : TransferRow).toSecteurId
    ∧ ([⟨"B", "x", 4, "kg", "t0"⟩] : List StockRow).find? (stockMatches "B" "x")
        = some ⟨"B", "x", 4, "kg", "t0"⟩
    ∧ ((handleConfirmTransfer ⟨"id2", "A", "B", "x", 3, "piece", WfStatus.pending⟩
          "t1" ⟨[⟨"B", "x", 4, "kg", "t0"⟩], [], []⟩).stocks.find?
          (stockMatches "B" "x")
        = some ⟨"B", "x", 7, "kg", "t1"⟩
      ∧ (handleConfirmAddition ⟨"ad1", "B", "x", 2, "piece", WfStatus.pending, "u0"⟩
          "t1" ⟨[⟨"B", "x", 4, "kg", "t0"⟩], [], []⟩).stocks.find?
          (stockMatches "B" "x")
        = some ⟨"B", "x", 6, "kg", "t1"⟩) :=
  ⟨by decide, by decide,
    confirm_credits_by_key_ignoring_unit ⟨[⟨"B", "x", 4, "kg", "t0"⟩], [], []⟩
      ⟨"id2", "A", "B", "x", 3, "piece", WfStatus.pending⟩
      ⟨"ad1", "B", "x", 2, "piece", WfStatus.pending, "u0"⟩ "t1"
      ⟨"B", "x", 4, "kg", "t0"⟩ ⟨"B", "x", 4, "kg", "t0"⟩
      (by decide) (by decide) (by decide)⟩

/-- Initial state for the double-confirmation counterexample: sector A
holds 10 of x and a pending transfer `tr1` of 5 from A to B is on file. -/
def cSt2 : LedgerState :=
  ⟨[⟨"A", "x", 10, "u", "t0"⟩], [⟨"tr1", "A", "B", "x", 5, "u", WfStatus.pending⟩], []⟩

/-- The transfer `tr1` as it stands after its first confirmation. -/
def cT2 : TransferRow := ⟨"tr1", "A", "B", "x", 5, "u", WfStatus.confirmed⟩

/-- The state after the first confirmation of `tr1`. -/
def cSt2b : LedgerState :=
  handleConfirmTransfer ⟨"tr1", "A", "B", "x", 5, "u", WfStatus.pending⟩ "t1" cSt2

/-- C2, counterexample: `handleConfirmTransfer` checks no status.  After
the first confirmation of `tr1` (A = 5, B = 5, `tr1` marked confirmed),
invoking the handler again on the now-confirmed transfer raises no error
and moves another 5 (A = 0, B = 10): the second attempt neither fails with
an invalid-state error nor leaves the balances unchanged, refuting the
claim that a second confirmation is rejected and never double-applied. -/
theorem confirm_twice_reapplies_quantity :
    cT2.status = WfStatus.confirmed
    ∧ (∀ tr ∈ cSt2b.transfers, tr.status = WfStatus.confirmed)
    ∧ balance "A" "x" cSt2b.stocks = 5
    ∧ balance "B" "x" cSt2b.stocks = 5
    ∧ balance "A" "x" (handleConfirmTransfer cT2 "t2" cSt2b).stocks = 0
    ∧ balance "B" "x" (handleConfirmTransfer cT2 "t2" cSt2b).stocks = 10 := by
  decide

/-- C2 amended: the confirm handlers themselves perform no status check (a
second invocation re-applies the quantity, see the counterexample); the
guard against a second confirmation attempt is the UI: the lists feeding
the confirmation dialogs contain only pending items, so an
already-confirmed transfer or addition is never offered for confirmation
again. -/
theorem confirmed_items_not_offered (userFermeId : String)
    (ts : List TransferRow) (adds : List AdditionRow)
    (t : TransferRow) (a : AdditionRow)
    (ht : t.status = WfStatus.confirmed) (ha : a.status = WfStatus.confirmed) :
    t ∉ pendingIncomingTransfers userFermeId ts ∧ a ∉ pendingAdditions adds := by
  constructor
  · intro hmem
    have hcond := (List.mem_filter.mp hmem).2
    simp [ht] at hcond
  · intro hmem
    have hcond := (List.mem_filter.mp hmem).2
    simp [ha] at hcond

theorem confirmed_items_not_offered_witness :
    cT2.status = WfStatus.confirmed
    ∧ (⟨"ad1", "B", "x", 2, "u", WfStatus.confirmed, "u0"⟩ : AdditionRow).status
        = WfStatus.confirmed
    ∧ (cT2 ∉ pendingIncomingTransfers "B" [cT2]
      ∧ (⟨"ad1", "B", "x", 2, "u", WfStatus.confirmed, "u0"⟩ : AdditionRow)
          ∉ pendingAdditions [⟨"ad1", "B", "x", 2, "u", WfStatus.confirmed, "u0"⟩]) :=
  ⟨rfl, rfl,
    confirmed_items_not_offered "B" [cT2]
      [⟨"ad1", "B", "x", 2, "u", WfStatus.confirmed, "u0"⟩] cT2
      ⟨"ad1", "B", "x", 2, "u", WfStatus.confirmed, "u0"⟩ rfl rfl⟩

theorem nonneg_upsert {k i : String} {q : Int} {u n : String} {l : List StockRow}
    (hq : 0 ≤ q) (hnn : ∀ s ∈ l, 0 ≤ s.quantity) :
    ∀ s ∈ upsertStock k i q u n l, 0 ≤ s.quantity := by
  intro s hs
  by_cases h : (l.find? (stockMatches k i)).isSome
  · simp only [upsertStock, h, if_true] at hs
    rcases mem_updateFirst hs with h1 | ⟨y, hy, rfl⟩
    · exact hnn s h1
    · exact add_nonneg (hnn y (List.mem_of_find?_eq_some hy)) hq
  · simp only [upsertStock, h, Bool.false_eq_true, if_false] at hs
    rcases List.mem_append.mp hs with h1 | h2
    · exact hnn s h1
    · have : s = (⟨k, i, q, u, n⟩ : StockRow) := by simpa using h2
      rw [this]
      exact hq

theorem nonneg_debit {k i : String} {q : Int} {n : String} {l : List StockRow}
    (hnn : ∀ s ∈ l, 0 ≤ s.quantity)
    (hqle : ∀ s, l.find? (stockMatches k i) = some s → q ≤ s.quantity) :
    ∀ s ∈ debitStock k i q n l, 0 ≤ s.quantity := by
  intro s hs
  by_cases h : (l.find? (stockMatches k i)).isSome
  · simp only [debitStock, h, if_true] at hs
    rcases mem_updateFirst hs with h1 | ⟨y, hy, rfl⟩
    · exact hnn s h1
    · exact sub_nonneg.mpr (hqle y hy)
  · simp only [debitStock, h, Bool.false_eq_true, if_false] at hs
    exact hnn s hs

/-- First reachable state of the negative-balance counterexample: a farm
admin of A adds 10 of ciment to the empty store. -/
def negSt1 : LedgerState := ⟨[⟨"A", "ciment", 10, "u", "t0"⟩], [], []⟩

/-- First pending transfer of 10 from A to B. -/
def negT1 : TransferRow := ⟨"tr1", "A", "B", "ciment", 10, "u", WfStatus.pending⟩

/-- Second pending transfer of 10 from A to B, validated against the same
balance of 10 while the first is still pending. -/
def negT2 : TransferRow := ⟨"tr2", "A", "B", "ciment", 10, "u", WfStatus.pending⟩

/-- State after the first transfer request succeeded. -/
def negSt2 : LedgerState := ⟨[⟨"A", "ciment", 10, "u", "t0"⟩], [negT1], []⟩

/-- State after the second transfer request succeeded. -/
def negSt3 : LedgerState := ⟨[⟨"A", "ciment", 10, "u", "t0"⟩], [negT1, negT2], []⟩

/-- C4, counterexample: a reachable sequence of validated ledger operations
drives a stock quantity below 0.  Starting from the empty store, an
`addStock` of 10 to A succeeds, two `createTransfer` requests of 10 from A
to B both pass the insufficient-stock check (each is validated against the
balance of 10, which pending transfers do not reserve), and confirming
both leaves A's ciment row at -10. -/
theorem stock_quantity_goes_negative :
    handleAddStockSubmit false "A" "u0" "ciment" 10 "u" "A" "n0" "t0"
        ⟨[], [], []⟩ = .ok negSt1
    ∧ handleTransferSubmit false "A" "ciment" 10 "u" "B" "" "tr1" negSt1
        = .ok negSt2
    ∧ handleTransferSubmit false "A" "ciment" 10 "u" "B" "" "tr2" negSt2
        = .ok negSt3
    ∧ balance "A" "ciment"
        (handleConfirmTransfer negT2 "t2"
          (handleConfirmTransfer negT1 "t1" negSt3)).stocks = -10 :=
  ⟨rfl, rfl, rfl, by decide⟩

/-- C4 amended: every single ledger operation preserves `quantity ≥ 0` of
all stock rows — `addStock` unconditionally (its validation forces a
positive quantity), `confirmAddition` for a nonnegative addition quantity,
`createTransfer` unconditionally (it writes no stock row), and
`confirmTransfer` provided the sender's matching row still holds at least
the transfer quantity at confirmation time.  Without that proviso the
invariant fails on reachable sequences: two transfers validated against
the same balance and then both confirmed drive the sender negative (see
the counterexample). -/
theorem stock_nonneg_per_operation (st : LedgerState)
    (hnn : ∀ s ∈ st.stocks, 0 ≤ s.quantity) :
    (∀ (isSuperAdmin : Bool)
        (userFermeId userUid item unit secteurId newId now : String)
        (quantity : Int) (st' : LedgerState),
        handleAddStockSubmit isSuperAdmin userFermeId userUid item quantity unit
            secteurId newId now st = .ok st' →
        ∀ s ∈ st'.stocks, 0 ≤ s.quantity)
    ∧ (∀ (a : AdditionRow) (now : String), 0 ≤ a.quantity →
        ∀ s ∈ (handleConfirmAddition a now st).stocks, 0 ≤ s.quantity)
    ∧ (∀ (isSuperAdmin : Bool)
        (userFermeId item unit toSecteurId fromSecteurIdForm newId : String)
        (quantity : Int) (st' : LedgerState),
        handleTransferSubmit isSuperAdmin userFermeId item quantity unit
            toSecteurId fromSecteurIdForm newId st = .ok st' →
        st'.stocks = st.stocks)
    ∧ (∀ (t : TransferRow) (now : String), 0 ≤ t.quantity →
        (∀ s, st.stocks.find? (stockMatches t.fromSecteurId t.item) = some s →
          t.quantity ≤ s.quantity) →
        ∀ s ∈ (handleConfirmTransfer t now st).stocks, 0 ≤ s.quantity) := by
  refine ⟨?_, ?_, ?_, ?_⟩
  · intro isSA ufid uuid item unit sec newId now q st' h
    simp only [handleAddStockSubmit] at h
    by_cases h1 : item = "" ∨ isSA = false ∧ sec = ""
    · rw [if_pos h1] at h
      exact absurd h (by simp)
    · rw [if_neg h1] at h
      by_cases h2 : q ≤ 0
      · rw [if_pos h2] at h
        exact absurd h (by simp)
      · rw [if_neg h2] at h
        by_cases h3 : isSA = true
        · rw [if_pos h3] at h
          simp only [Except.ok.injEq] at h
          rw [← h]
          exact hnn
        · rw [if_neg h3] at h
          simp only [Except.ok.injEq] at h
          rw [← h]
          exact nonneg_upsert (by omega) hnn
  · intro a now ha
    simp only [handleConfirmAddition]
    exact nonneg_upsert ha hnn
  · intro isSA ufid item unit toS fromF newId q st' h
    simp only [handleTransferSubmit] at h
    by_cases h1 : item = "" ∨ toS = "" ∨ isSA = true ∧ fromF = ""
    · rw [if_pos h1] at h
      exact absurd h (by simp)
    · rw [if_neg h1] at h
      by_cases h2 : toS = (if isSA then fromF else ufid)
      · rw [if_pos h2] at h
        exact absurd h (by simp)
      · rw [if_neg h2] at h
        by_cases h3 : q ≤ 0
        · rw [if_pos h3] at h
          exact absurd h (by simp)
        · rw [if_neg h3] at h
          cases hfind : st.stocks.find?
              (stockMatches (if isSA then fromF else ufid) item) with
          | none =>
            rw [hfind] at h
            exact absurd h (by simp)
          | some s =>
            rw [hfind] at h
            by_cases h4 : s.quantity < q
            · exact absurd h (by simp [h4])
            · simp [h4] at h
              subst h
              rfl
  · intro t now hq hqle
    simp only [handleConfirmTransfer]
    exact nonneg_upsert hq (nonneg_debit hnn hqle)

theorem stock_nonneg_per_operation_witness :
    (∀ s ∈ negSt1.stocks, 0 ≤ s.quantity)
    ∧ (0 : Int) ≤ 2
    ∧ ∀ s ∈ (handleConfirmAddition
        ⟨"ad1", "A", "x", 2, "u", WfStatus.pending, "u0"⟩ "t1" negSt1).stocks,
        0 ≤ s.quantity :=
  ⟨by decide, by decide,
    (stock_nonneg_per_operation negSt1 (by decide)).2.1
      ⟨"ad1", "A", "x", 2, "u", WfStatus.pending, "u0"⟩ "t1" (by decide)⟩

/-! ### String-key lemmas for the occupancy reconciler -/

theorem string_ext {s t : String} (h : s.data = t.data) : s = t := by
  cases s
  cases t
  exact congrArg String.mk h

theorem string_data_append (s t : String) : (s ++ t).data = s.data ++ t.data :=
  rfl

theorem dash_data : ("-" : String).data = ['-'] := rfl

theorem sep_inj {l₁ : List Char} : ∀ {l₂ r₁ r₂ : List Char}, '-' ∉ l₁ →
    '-' ∉ l₂ → l₁ ++ '-' :: r₁ = l₂ ++ '-' :: r₂ → l₁ = l₂ ∧ r₁ = r₂ := by
  induction l₁ with
  | nil =>
    intro l₂ r₁ r₂ _ h₂ h
    cases l₂ with
    | nil => simpa using h
    | cons b t =>
      simp only [List.nil_append, List.cons_append, List.cons.injEq] at h
      have hb : b = '-' := h.1.symm
      subst hb
      exact absurd (List.mem_cons_self _ _) h₂
  | cons a t ih =>
    intro l₂ r₁ r₂ h₁ h₂ h
    cases l₂ with
    | nil =>
      simp only [List.cons_append, List.nil_append, List.cons.injEq] at h
      have ha : a = '-' := h.1
      subst ha
      exact absurd (List.mem_cons_self _ _) h₁
    | cons b t₂ =>
      simp only [List.cons_append, List.cons.injEq] at h
      obtain ⟨hab, hrest⟩ := h
      have h₁' : '-' ∉ t := fun hm => h₁ (List.mem_cons_of_mem _ hm)
      have h₂' : '-' ∉ t₂ := fun hm => h₂ (List.mem_cons_of_mem _ hm)
      obtain ⟨he, hr⟩ := ih h₁' h₂' hrest
      exact ⟨by rw [hab, he], hr⟩

theorem key_inj {f₁ c₁ g₁ f₂ c₂ g₂ : String}
    (hf₁ : noDash f₁) (hc₁ : noDash c₁) (hf₂ : noDash f₂) (hc₂ : noDash c₂)
    (h : f₁ ++ "-" ++ c₁ ++ "-" ++ g₁ = f₂ ++ "-" ++ c₂ ++ "-" ++ g₂) :
    f₁ = f₂ ∧ c₁ = c₂ ∧ g₁ = g₂ := by
  have hd : f₁.data ++ '-' :: (c₁.data ++ '-' :: g₁.data)
      = f₂.data ++ '-' :: (c₂.data ++ '-' :: g₂.data) := by
    have h0 := congrArg String.data h
    simp only [string_data_append, dash_data] at h0
    simpa [List.append_assoc] using h0
  obtain ⟨e1, e2⟩ := sep_inj hf₁ hf₂ hd
  obtain ⟨e3, e4⟩ := sep_inj hc₁ hc₂ e2
  exact ⟨string_ext e1, string_ext e3, string_ext e4⟩

theorem workerKey_eq_roomKey_iff (w : Worker) (r : Room)
    (hwf : noDash w.fermeId) (hwc : noDash w.chambre)
    (hrf : noDash r.fermeId) (hrn : noDash r.numero) :
    workerKey w = roomKey r ↔
      (w.fermeId = r.fermeId ∧ w.chambre = r.numero
        ∧ genderLabel w.sexe = genreStr r.genre) := by
  constructor
  · intro h
    exact key_inj hwf hwc hrf hrn h
  · rintro ⟨h1, h2, h3⟩
    simp [workerKey, roomKey, h1, h2, h3]

theorem foldl_groupStep (ws : List Worker) :
    ∀ (acc : String → List Worker) (k : String),
      (ws.foldl groupStep acc) k
        = acc k ++ ws.filter
            (fun w => eligibleWorker w && decide (workerKey w = k)) := by
  induction ws with
  | nil => intro acc k; simp
  | cons w ws ih =>
    intro acc k
    rw [List.foldl_cons, ih, List.filter_cons]
    by_cases he : eligibleWorker w
    · by_cases hk : workerKey w = k
      · have hstep : (groupStep acc w) k = acc k ++ [w] := by
          simp [groupStep, he, hk.symm]
        rw [hstep]
        simp [he, hk, List.append_assoc]
      · have hk' : ¬ k = workerKey w := fun h => hk h.symm
        have hstep : (groupStep acc w) k = acc k := by
          simp [groupStep, he, hk']
        rw [hstep]
        simp [he, hk]
    · have hstep : (groupStep acc w) k = acc k := by
        simp [groupStep, he]
      rw [hstep]
      simp [he]

theorem workersByRoom_eq_filter (ws : List Worker) (k : String) :
    workersByRoom ws k
      = ws.filter (fun w => eligibleWorker w && decide (workerKey w = k)) := by
  rw [workersByRoom, foldl_groupStep]
  simp

/-! ### Claim theorems for the occupancy reconciler -/

/-- C5, counterexample: the string-concatenated grouping keys collide when
a component contains the separator.  Worker w1 of farm "a" assigned room
"b-1" produces the key "a-b-1-hommes", identical to the key of room "1"
(genre hommes) of the distinct farm "a-b".  Componentwise, no worker
matches that room (`trueCount` is 0) and its stored count 0 is correct, so
the claim requires no correction; the code nevertheless emits a correction
setting the count to 1. -/
theorem sync_key_collision_cex :
    trueCount [⟨"w1", "a", Sexe.homme, "b-1", Statut.actif⟩]
        ⟨"r1", "1", "a-b", Genre.hommes, 4, 0, [], 0⟩ = 0
    ∧ (⟨"r1", "1", "a-b", Genre.hommes, 4, 0, [], 0⟩ : Room).occupantsActuels = 0
    ∧ (syncRoomOccupancy [⟨"w1", "a", Sexe.homme, "b-1", Statut.actif⟩]
        [⟨"r1", "1", "a-b", Genre.hommes, 4, 0, [], 0⟩] 1).2
      = [⟨"r1", 1, ["w1"]⟩]
    ∧ ((syncRoomOccupancy [⟨"w1", "a", Sexe.homme, "b-1", Statut.actif⟩]
        [⟨"r1", "1", "a-b", Genre.hommes, 4, 0, [], 0⟩] 1).1.map
        Room.occupantsActuels) = [1] := by
  decide

/-- C5 amended: when no id or room number contains the key separator `-`
and every worker carries a non-empty `chambre` and `fermeId` (the code
silently drops workers with empty ones from every group), the corrected
count of a room equals the componentwise true count — the number of active
workers whose `chambre`, gender label and `fermeId` match the room — and a
correction is emitted iff the stored count differs from that true count
(list content alone never triggers one).  `syncRoomOccupancy` is the
per-room map/filterMap of `syncRoom`, so this settles every room of a
reconciliation pass. -/
theorem syncRoom_count_componentwise (workers : List Worker) (now : Nat)
    (r : Room)
    (hw : ∀ w ∈ workers,
      noDash w.fermeId ∧ noDash w.chambre ∧ w.fermeId ≠ "" ∧ w.chambre ≠ "")
    (hrf : noDash r.fermeId) (hrn : noDash r.numero) :
    (syncRoom workers now r).1.occupantsActuels = (trueCount workers r : Int)
    ∧ ((syncRoom workers now r).2 ≠ none
        ↔ r.occupantsActuels ≠ (trueCount workers r : Int)) := by
  have hfilter : workersByRoom workers (roomKey r)
      = workers.filter (fun w => decide (w.statut = Statut.actif
          ∧ w.chambre = r.numero ∧ w.fermeId = r.fermeId
          ∧ genderLabel w.sexe = genreStr r.genre)) := by
    rw [workersByRoom_eq_filter]
    apply List.filter_congr
    intro w hwm
    obtain ⟨h1, h2, h3, h4⟩ := hw w hwm
    simp only [eligibleWorker, ← Bool.decide_and]
    apply decide_eq_decide.mpr
    constructor
    · rintro ⟨⟨ha, _, _⟩, hk⟩
      obtain ⟨e1, e2, e3⟩ := (workerKey_eq_roomKey_iff w r h1 h2 hrf hrn).mp hk
      exact ⟨ha, e2, e1, e3⟩
    · rintro ⟨ha, hb, hc, hd⟩
      exact ⟨⟨ha, h4, h3⟩,
        (workerKey_eq_roomKey_iff w r h1 h2 hrf hrn).mpr ⟨hc, hb, hd⟩⟩
  have hlen : (workersByRoom workers (roomKey r)).length = trueCount workers r := by
    rw [hfilter, trueCount, List.countP_eq_length_filter]
  have hlenZ : ((workersByRoom workers (roomKey r)).length : Int)
      = (trueCount workers r : Int) := congrArg Nat.cast hlen
  constructor
  · simp only [syncRoom]
    split
    · exact hlenZ
    · rename_i hcond
      exact (not_ne_iff.mp hcond).trans hlenZ
  · simp only [syncRoom]
    split
    · rename_i hcond
      constructor
      · intro _
        rw [← hlenZ]
        exact hcond
      · intro _
        simp
    · rename_i hcond
      have heq : r.occupantsActuels = (trueCount workers r : Int) :=
        (not_ne_iff.mp hcond).trans hlenZ
      constructor
      · intro hno
        exact absurd rfl hno
      · intro hne
        exact absurd heq hne

/-- Workers of the witness: two active men assigned room 101 of farm f1
(the worked example of §8 of the spec). -/
def cWorkers : List Worker :=
  [⟨"w1", "f1", Sexe.homme, "101", Statut.actif⟩,
   ⟨"w2", "f1", Sexe.homme, "101", Statut.actif⟩]

/-- Room 101 of the witness, stored count 1. -/
def cRoom : Room := ⟨"r1", "101", "f1", Genre.hommes, 4, 1, [], 0⟩

theorem syncRoom_count_componentwise_witness :
    (∀ w ∈ cWorkers,
      noDash w.fermeId ∧ noDash w.chambre ∧ w.fermeId ≠ "" ∧ w.chambre ≠ "")
    ∧ noDash cRoom.fermeId
    ∧ noDash cRoom.numero
    ∧ ((syncRoom cWorkers 5 cRoom).1.occupantsActuels
        = (trueCount cWorkers cRoom : Int)
      ∧ ((syncRoom cWorkers 5 cRoom).2 ≠ none
          ↔ cRoom.occupantsActuels ≠ (trueCount cWorkers cRoom : Int))) :=
  ⟨by decide, by decide, by decide,
    syncRoom_count_componentwise cWorkers 5 cRoom (by decide) (by decide)
      (by decide)⟩

theorem roomKey_syncRoom (workers : List Worker) (now : Nat) (r : Room) :
    roomKey ((syncRoom workers now r).1) = roomKey r := by
  simp only [syncRoom]
  split <;> rfl

theorem occupantsActuels_syncRoom (workers : List Worker) (now : Nat) (r : Room) :
    ((syncRoom workers now r).1).occupantsActuels
      = ((workersByRoom workers (roomKey r)).length : Int) := by
  simp only [syncRoom]
  split
  · rfl
  · rename_i hcond
    exact not_ne_iff.mp hcond

theorem syncRoom_stable (workers : List Worker) (now now' : Nat) (r : Room) :
    (syncRoom workers now' ((syncRoom workers now r).1)).2 = none := by
  have h1 := roomKey_syncRoom workers now r
  have h2 := occupantsActuels_syncRoom workers now r
  set r₁ := (syncRoom workers now r).1 with hr₁
  simp only [syncRoom]
  rw [h1, h2]
  simp

/-- C6: reconciliation is idempotent — running `syncRoomOccupancy` over the
room list produced by a previous run (its corrections applied), with the
same worker snapshot, emits no correction: every room's stored count
already equals the recomputed count, whose key-based grouping is unchanged
because corrections never touch `fermeId`, `numero` or `genre`. -/
theorem sync_idempotent (workers : List Worker) (rooms : List Room)
    (now now' : Nat) :
    (syncRoomOccupancy workers ((syncRoomOccupancy workers rooms now).1) now').2
      = [] := by
  simp only [syncRoomOccupancy, List.filterMap_map]
  rw [List.filterMap_eq_nil_iff]
  intro r hr
  simp only [Function.comp]
  exact syncRoom_stable workers now now' r

/-- C9: a correction rewrites only the counted fields of its own room: the
output room keeps its `id`, `numero`, `fermeId`, `genre` and
`capaciteTotale`; a room receiving no correction is returned unchanged;
and the output list is the elementwise image of `syncRoom`, so no room's
output depends on any other room. -/
theorem syncRoom_frame (workers : List Worker) (now : Nat) (r : Room)
    (rooms : List Room) :
    ((syncRoom workers now r).1.id = r.id
      ∧ (syncRoom workers now r).1.numero = r.numero
      ∧ (syncRoom workers now r).1.fermeId = r.fermeId
      ∧ (syncRoom workers now r).1.genre = r.genre
      ∧ (syncRoom workers now r).1.capaciteTotale = r.capaciteTotale)
    ∧ ((syncRoom workers now r).2 = none → (syncRoom workers now r).1 = r)
    ∧ (syncRoomOccupancy workers rooms now).1
        = rooms.map (fun x => (syncRoom workers now x).1) := by
  refine ⟨⟨?_, ?_, ?_, ?_, ?_⟩, ?_, rfl⟩
  · simp only [syncRoom]; split <;> rfl
  · simp only [syncRoom]; split <;> rfl
  · simp only [syncRoom]; split <;> rfl
  · simp only [syncRoom]; split <;> rfl
  · simp only [syncRoom]; split <;> rfl
  · simp only [syncRoom]
    split
    · intro h
      exact absurd h (by simp)
    · intro _
      rfl

theorem syncRoom_frame_witness :
    (syncRoom cWorkers 5 cRoom).1.numero = cRoom.numero
    ∧ (syncRoom cWorkers 5 cRoom).1.capaciteTotale = cRoom.capaciteTotale :=
  ⟨(syncRoom_frame cWorkers 5 cRoom []).1.2.1,
   (syncRoom_frame cWorkers 5 cRoom []).1.2.2.2.2⟩

theorem mkRoomStat_bounds (counts : String → Nat) (r : Room) :
    (mkRoomStat counts r).utilizationRate ≤ 100
    ∧ (r.capaciteTotale = 0 → (mkRoomStat counts r).utilizationRate = 0)
    ∧ (mkRoomStat counts r).capacityUsed ≤ r.capaciteTotale
    ∧ (r.capaciteTotale < ((mkRoomStat counts r).workersCount : Int) →
        (mkRoomStat counts r).capacityUsed = r.capaciteTotale) := by
  simp only [mkRoomStat]
  refine ⟨?_, ?_, min_le_right _ _, ?_⟩
  · split
    · rename_i hcap
      have hmin : min ((counts (statsRoomKey r) : Int)) r.capaciteTotale
          ≤ r.capaciteTotale := min_le_right _ _
      have hcapQ : (0 : ℚ) < (r.capaciteTotale : ℚ) := by exact_mod_cast hcap
      have hminQ : ((min ((counts (statsRoomKey r) : Int)) r.capaciteTotale : Int) : ℚ)
          ≤ (r.capaciteTotale : ℚ) := by exact_mod_cast hmin
      have hdiv : ((min ((counts (statsRoomKey r) : Int)) r.capaciteTotale : Int) : ℚ)
          / (r.capaciteTotale : ℚ) ≤ 1 := div_le_one_of_le₀ hminQ hcapQ.le
      calc ((min ((counts (statsRoomKey r) : Int)) r.capaciteTotale : Int) : ℚ)
            / (r.capaciteTotale : ℚ) * 100
          ≤ 1 * 100 := by
            exact mul_le_mul_of_nonneg_right hdiv (by norm_num)
        _ = 100 := by norm_num
    · norm_num
  · intro hcap
    rw [if_neg (by omega)]
  · intro hover
    exact min_eq_right (le_of_lt hover)

/-- The single room stat of the C7 scenario: capacity 3, one occupant,
exact rate 100/3. -/
def cStat7 : RoomStat :=
  ⟨⟨"r1", "101", "f", Genre.hommes, 3, 1, ["w1"], 0⟩, 1, true, 1, 100 / 3, false⟩

theorem stats7_roomStats_eval :
    (getFermeStats "f" [⟨"w1", "f", Sexe.homme, "101", Statut.actif⟩]
        [⟨"r1", "101", "f", Genre.hommes, 3, 1, ["w1"], 0⟩]).roomStats
      = [cStat7] := by
  have hcount : statsWorkersByRoom [⟨"w1", "f", Sexe.homme, "101", Statut.actif⟩]
      (statsRoomKey ⟨"r1", "101", "f", Genre.hommes, 3, 1, ["w1"], 0⟩) = 1 := by
    decide
  simp [getFermeStats, mkRoomStat, cStat7, hcount]
  norm_num

/-- C7, counterexample: a room of capacity 3 holding one worker has the
computed rate 100/3, an exact (unrounded) rational; the claimed value
round(min(1,3)/3*100) is the integer 33, and 100/3 ≠ 33, so the per-room
occupancy rate is not the rounded value (the source rounds only the
sector-level aggregate). -/
theorem roomRate_unrounded_cex :
    ((getFermeStats "f" [⟨"w1", "f", Sexe.homme, "101", Statut.actif⟩]
        [⟨"r1", "101", "f", Genre.hommes, 3, 1, ["w1"], 0⟩]).roomStats.map
        RoomStat.utilizationRate) = [100 / 3]
    ∧ round ((100 : ℚ) / 3) = 33
    ∧ ((100 : ℚ) / 3) ≠ ((33 : ℤ) : ℚ) := by
  refine ⟨?_, by norm_num [round_eq], by norm_num⟩
  rw [stats7_roomStats_eval]
  rfl

/-- C7 amended: the per-room occupancy rate is the exact (unrounded) value
of min(trueCount, capacity)/capacity*100 — only the sector-level
`tauxOccupation` is rounded — and it is 0 when the capacity is 0 and never
exceeds 100; each room contributes min(trueCount, capacity) to the
sector's occupied total, hence at most (and, when overfull, exactly) its
capacity. -/
theorem roomStat_rate_bounds (fermeId : String) (workers : List Worker)
    (rooms : List Room) (rs : RoomStat)
    (hmem : rs ∈ (getFermeStats fermeId workers rooms).roomStats) :
    rs.utilizationRate ≤ 100
    ∧ (rs.room.capaciteTotale = 0 → rs.utilizationRate = 0)
    ∧ rs.capacityUsed ≤ rs.room.capaciteTotale
    ∧ (rs.room.capaciteTotale < (rs.workersCount : Int) →
        rs.capacityUsed = rs.room.capaciteTotale)
    ∧ (getFermeStats fermeId workers rooms).totalOccupied
        = ((getFermeStats fermeId workers rooms).roomStats.map
            RoomStat.capacityUsed).sum := by
  have hmem' : ∃ r, r ∈ rooms.filter (fun r => decide (r.fermeId = fermeId))
      ∧ mkRoomStat (statsWorkersByRoom (workers.filter
          (fun w => decide (w.fermeId = fermeId ∧ w.statut = Statut.actif)))) r
        = rs := by
    simpa [getFermeStats] using hmem
  obtain ⟨r, _, hr⟩ := hmem'
  have hb := mkRoomStat_bounds (statsWorkersByRoom (workers.filter
    (fun w => decide (w.fermeId = fermeId ∧ w.statut = Statut.actif)))) r
  rw [hr] at hb
  have hroom : rs.room = r := by
    rw [← hr]
    rfl
  refine ⟨hb.1, ?_, ?_, ?_, rfl⟩
  · rw [hroom]
    exact hb.2.1
  · rw [hroom]
    exact hb.2.2.1
  · rw [hroom]
    exact hb.2.2.2

theorem roomStat_rate_bounds_witness :
    cStat7 ∈ (getFermeStats "f" [⟨"w1", "f", Sexe.homme, "101", Statut.actif⟩]
        [⟨"r1", "101", "f", Genre.hommes, 3, 1, ["w1"], 0⟩]).roomStats
    ∧ (cStat7.utilizationRate ≤ 100
      ∧ (cStat7.room.capaciteTotale = 0 → cStat7.utilizationRate = 0)
      ∧ cStat7.capacityUsed ≤ cStat7.room.capaciteTotale
      ∧ (cStat7.room.capaciteTotale < (cStat7.workersCount : Int) →
          cStat7.capacityUsed = cStat7.room.capaciteTotale)
      ∧ (getFermeStats "f" [⟨"w1", "f", Sexe.homme, "101", Statut.actif⟩]
            [⟨"r1", "101", "f", Genre.hommes, 3, 1, ["w1"], 0⟩]).totalOccupied
        = ((getFermeStats "f" [⟨"w1", "f", Sexe.homme, "101", Statut.actif⟩]
            [⟨"r1", "101", "f", Genre.hommes, 3, 1, ["w1"], 0⟩]).roomStats.map
            RoomStat.capacityUsed).sum) :=
  ⟨by rw [stats7_roomStats_eval]; exact List.mem_singleton.mpr rfl,
    roomStat_rate_bounds "f" [⟨"w1", "f", Sexe.homme, "101", Statut.actif⟩]
      [⟨"r1", "101", "f", Genre.hommes, 3, 1, ["w1"], 0⟩] cStat7
      (by rw [stats7_roomStats_eval]; exact List.mem_singleton.mpr rfl)⟩

end Secter
